import Mathlib

/-!
Shallow embedding of the interactive session driver of this repository:
the pure text-scanning helpers (`extractUrl`, `detectMenu`), the
stream-handler state machine of `refreshTokens` in src/src/refresh_token.ts,
the older variant of the same driver kept in src/unnamed/part_000, and the
exit-code promise executor with its one-shot resolved guard.

Strings are modelled as `List Char`.  JavaScript machine behaviour is
embedded explicitly: the `\s` regex class and `String.prototype.trim` use the
JavaScript whitespace set, `String.prototype.includes` is contiguous
substring search, `toLowerCase` is ASCII lowercasing (all case-carrying
characters in the embedded string data are ASCII), and `x || 0` on a nullable
exit code maps null and 0 to 0.
-/

namespace RefreshToken

/-- Characters matched by the JavaScript regex class `\s` (and removed by
`String.prototype.trim`): ASCII whitespace, NBSP, the Unicode space
separators, line/paragraph separators and the BOM. -/
def isJsSpace (c : Char) : Bool :=
  let n := c.toNat
  n == 9 || n == 10 || n == 11 || n == 12 || n == 13 || n == 32 || n == 160 ||
  n == 0x1680 || (decide (0x2000 ≤ n) && decide (n ≤ 0x200a)) ||
  n == 0x2028 || n == 0x2029 || n == 0x202f || n == 0x205f ||
  n == 0x3000 || n == 0xfeff

/-- A character admitted by the negated character class that every URL
pattern of `extractUrl` uses for the body of a URL.  The class excludes
whitespace and eleven punctuation characters, written here via their code
points: 60 62 34 123 125 124 92 94 96 91 93. -/
def isUrlChar (c : Char) : Bool :=
  let n := c.toNat
  !(isJsSpace c || n == 60 || n == 62 || n == 34 || n == 123 || n == 125 ||
    n == 124 || n == 92 || n == 94 || n == 96 || n == 91 || n == 93)

/-- JavaScript `String.prototype.trim`: drop whitespace from both ends. -/
def jsTrim (l : List Char) : List Char :=
  List.reverse (List.dropWhile isJsSpace (List.reverse (List.dropWhile isJsSpace l)))

/-- JavaScript `String.prototype.includes`: does `needle` occur contiguously
inside `hay`?  The scan tries every start position, like the native search. -/
def containsSub : List Char → List Char → Bool
  | [], needle => List.isPrefixOf needle []
  | c :: t, needle => List.isPrefixOf needle (c :: t) || containsSub t needle

/-- JavaScript `String.prototype.toLowerCase`, restricted to ASCII case
mapping; every case-carrying character appearing in the embedded literals is
ASCII, and non-ASCII symbols are fixed points on both sides. -/
def jsToLower (l : List Char) : List Char := l.map Char.toLower

/-- Anchored match of the shape shared by all URL patterns of `extractUrl`:
the literal `lit` followed by a nonempty greedy run of URL characters.  The
whole match is returned, as `String.prototype.match` returns whole matches. -/
def matchLitThenRun (lit l : List Char) : Option (List Char) :=
  if List.isPrefixOf lit l then
    let run := List.takeWhile isUrlChar (List.drop lit.length l)
    if run.isEmpty then none else some (lit ++ run)
  else none

/-- Anchored match of the first URL pattern of `extractUrl` (line 143): the
optional-`s` scheme alternation tries the greedy branch first and backtracks
to the plain one.  At a given position at most one of the two literals can
match, so trying both in order is the exact engine behaviour. -/
def matchHttpAt (l : List Char) : Option (List Char) :=
  match matchLitThenRun ("https://".toList) l with
  | some m => some m
  | none => matchLitThenRun ("http://".toList) l

/-- Anchored match of the prefixed URL patterns of `extractUrl`
(lines 146-148): a literal tag such as "Visit:", then a greedy whitespace
run, then an anchored scheme match.  Because the scheme starts with a
non-whitespace character, the greedy whitespace run needs no backtracking. -/
def matchPrefixedAt (pre : List Char) (l : List Char) : Option (List Char) :=
  if List.isPrefixOf pre l then
    let rest := List.drop pre.length l
    let ws := List.takeWhile isJsSpace rest
    match matchHttpAt (List.dropWhile isJsSpace rest) with
    | some m => some (pre ++ (ws ++ m))
    | none => none
  else none

/-- Leftmost match of an anchored matcher: try every position of the text in
order, including the final empty position, exactly as the regex engine
advances its scan. -/
def scanFirst (f : List Char → Option (List Char)) : List Char → Option (List Char)
  | [] => f []
  | c :: cs =>
    match f (c :: cs) with
    | some m => some m
    | none => scanFirst f cs

/-- One alternative of the prefix-stripping `replace` regex of `extractUrl`
(line 156): a case-insensitive anchored tag followed by a greedy whitespace
run. -/
def stripOneTag (tag m : List Char) : Option (List Char) :=
  if List.isPrefixOf (jsToLower tag) (jsToLower m) then
    some (List.dropWhile isJsSpace (List.drop tag.length m))
  else none

/-- The `replace` call of `extractUrl` (line 156): strip one leading
case-insensitive "Visit:" / "Open:" / "URL:" tag, in the order of the
alternation, together with the whitespace after it; otherwise return the
match unchanged. -/
def stripUrlPrefix (m : List Char) : List Char :=
  match stripOneTag ("Visit:".toList) m with
  | some r => r
  | none =>
    match stripOneTag ("Open:".toList) m with
    | some r => r
    | none =>
      match stripOneTag ("URL:".toList) m with
      | some r => r
      | none => m

/-- `extractUrl` from src/src/refresh_token.ts (lines 140-161): try the six
patterns in order over the whole text; the first pattern that matches
anywhere yields its leftmost whole match, which is returned after the prefix
strip. -/
def extractUrl (text : List Char) : Option (List Char) :=
  match scanFirst matchHttpAt text with
  | some m => some (stripUrlPrefix m)
  | none =>
  match scanFirst (matchLitThenRun ("claude.ai/".toList)) text with
  | some m => some (stripUrlPrefix m)
  | none =>
  match scanFirst (matchLitThenRun ("anthropic.com/".toList)) text with
  | some m => some (stripUrlPrefix m)
  | none =>
  match scanFirst (matchPrefixedAt ("Visit:".toList)) text with
  | some m => some (stripUrlPrefix m)
  | none =>
  match scanFirst (matchPrefixedAt ("Open:".toList)) text with
  | some m => some (stripUrlPrefix m)
  | none =>
  match scanFirst (matchPrefixedAt ("URL:".toList)) text with
  | some m => some (stripUrlPrefix m)
  | none => none

/-- The fixed indicator list of `detectMenu` (lines 165-180). -/
def menuIndicators : List (List Char) :=
  ["Choose an option".toList, "Select an option".toList,
   "Select login method".toList, "login method".toList,
   "Choose login method".toList, "Press Enter".toList, "continue".toList,
   "►".toList, "→".toList, ">".toList,
   "1)".toList, "2)".toList, "3)".toList,
   "[Enter]".toList, "(Enter)".toList,
   "to continue".toList, "to proceed".toList,
   "OAuth".toList, "Browser login".toList]

/-- `detectMenu` from src/src/refresh_token.ts (lines 164-184):
case-insensitive substring match against the fixed indicator list. -/
def detectMenu (text : List Char) : Bool :=
  menuIndicators.any (fun ind => containsSub (jsToLower text) (jsToLower ind))

/-- The mutable session variables of `refreshTokens` (lines 104-109).  The
`mockScriptsCreated` flag and the filesystem bookkeeping only affect the
cleanup in the finally block, which does not touch the returned Result. -/
structure DriverState where
  output : List Char
  errorOutput : List Char
  isLoginPrompted : Bool
  loginUrl : List Char
  menuDisplayed : Bool
  urlDetected : Bool
deriving DecidableEq

/-- The initial session state (lines 104-109). -/
def initState : DriverState :=
  { output := [], errorOutput := [], isLoginPrompted := false,
    loginUrl := [], menuDisplayed := false, urlDetected := false }

/-- `checkInterceptedUrl` (lines 112-123): `raw` is what the shell command
printed for /tmp/claude-intercepted-url.txt (the empty string when the file
is missing); the trimmed content counts only when it is nonempty and starts
with "http". -/
def checkInterceptedUrl (raw : List Char) : Option (List Char) :=
  let url := jsTrim raw
  if url.isEmpty then none
  else if List.isPrefixOf ("http".toList) url then some url
  else none

/-- The login-prompt note of the stdout handler (lines 210-212). -/
def noteLoginPrompted (st : DriverState) (text : List Char) : DriverState :=
  if containsSub text ("login".toList) || containsSub text ("authentication".toList)
      || containsSub text ("Welcome".toList) then
    { st with isLoginPrompted := true }
  else st

/-- The URL latch shared by the stdout handler (lines 214-221) and the
stderr handler (lines 255-262): a URL extracted from the chunk is stored
only while the `urlDetected` guard is still clear. -/
def latchUrl (st : DriverState) (text : List Char) : DriverState :=
  match extractUrl text with
  | some url =>
    if !st.urlDetected then { st with loginUrl := url, urlDetected := true } else st
  | none => st

/-- The menu response shared by the stdout handler (lines 233-246) and the
stderr handler (lines 269-281): on the first detected menu, set the
`menuDisplayed` guard and schedule the single delayed "Enter" newline write
to the child input (the returned flag). -/
def answerMenu (st : DriverState) (text : List Char) : DriverState × Bool :=
  if detectMenu text && !st.menuDisplayed then
    ({ st with menuDisplayed := true }, true)
  else (st, false)

/-- The stdout "data" handler (lines 204-247), in source order: accumulate
`output`, note a login prompt, latch a URL, answer a menu.  Console logging
and the logging-only checks (`detectUrlMessage`, the "Opening browser" test)
change no session state and are omitted. -/
def onStdout (st : DriverState) (text : List Char) : DriverState × Bool :=
  answerMenu (latchUrl (noteLoginPrompted { st with output := st.output ++ text } text) text) text

/-- The stderr "data" handler (lines 250-282), in source order: accumulate
`errorOutput`, latch a URL under the same `urlDetected` guard, answer a menu
under the same `menuDisplayed` guard as the stdout handler. -/
def onStderr (st : DriverState) (text : List Char) : DriverState × Bool :=
  answerMenu (latchUrl { st with errorOutput := st.errorOutput ++ text } text) text

/-- One firing of the 500 ms polling interval (lines 126-137): read the
intercepted-url file and latch its content when no URL has been detected
yet. -/
def onIntervalCheck (st : DriverState) (raw : List Char) : DriverState :=
  if !st.urlDetected then
    match checkInterceptedUrl raw with
    | some url => { st with loginUrl := url, urlDetected := true }
    | none => st
  else st

/-- An observable event during the streaming phase of a session: a stdout
chunk, a stderr chunk, or a firing of the polling interval carrying the
current intercepted-url file content. -/
inductive ChunkEvent
  | stdoutData (text : List Char)
  | stderrData (text : List Char)
  | intervalFire (raw : List Char)
deriving DecidableEq

/-- Dispatch one streaming event to its handler.  The second component
records whether the event scheduled an "Enter" newline write. -/
def stepChunk (st : DriverState) (e : ChunkEvent) : DriverState × Bool :=
  match e with
  | .stdoutData t => onStdout st t
  | .stderrData t => onStderr st t
  | .intervalFire raw => (onIntervalCheck st raw, false)

/-- Process a sequence of streaming events in arrival order (all handlers
run on the same event loop), counting the "Enter" newline keystrokes
scheduled for the child input. -/
def processChunks (st : DriverState) : List ChunkEvent → DriverState × Nat
  | [] => (st, 0)
  | e :: es =>
    let p := stepChunk st e
    let q := processChunks p.1 es
    (q.1, (if p.2 then 1 else 0) + q.2)

/-- `RefreshTokenResult` (lines 9-15): a `none` field is a field absent from
the returned object. -/
structure RefreshTokenResult where
  success : Bool
  output : Option (List Char)
  errorOutput : Option (List Char)
  error : Option (List Char)
  loginUrl : Option (List Char)
deriving DecidableEq

/-- How the terminal phase of a session ends: the child closes with an exit
code (possibly null), the child emits an "error" event, or neither happens
before the 120 s watchdog fires. -/
inductive TerminalEvent
  | closeEvt (code : Option Nat)
  | errorEvt (msg : List Char)
  | timeoutEvt
deriving DecidableEq

/-- The expression `code || 0` of the close handler (line 365): a null or
zero reported code resolves to 0, any other code to itself. -/
def resolveCloseCode : Option Nat → Nat
  | none => 0
  | some n => if n == 0 then 0 else n

/-- The outcome visible outside `refreshTokens`: either the Result object it
returns, or a crash of the whole process by an exception thrown inside an
event-loop callback, which the try/catch of the function cannot observe. -/
inductive SessionOutcome
  | result (r : RefreshTokenResult)
  | crash (msg : List Char)
deriving DecidableEq

/-- The final intercepted-url check after a normal close (lines 382-389). -/
def applyFinalUrlCheck (st : DriverState) (finalRaw : List Char) : DriverState :=
  if !st.urlDetected then
    match checkInterceptedUrl finalRaw with
    | some url => { st with loginUrl := url, urlDetected := true }
    | none => st
  else st

/-- The terminal phase of `refreshTokens` (lines 327-414).  A close settles
the exit-code promise with `code || 0`; after the final intercepted-url
check, exit code 0 maps to the success Result and any other code to the
failure Result, both carrying output, errorOutput and loginUrl (lines
391-409).  The watchdog rejects the promise, so the await throws and the
catch block (lines 411-414) returns only `success:false` with the error
message.  An "error" event first invokes the listener of lines 285-288,
which rethrows inside the event-loop callback; the rethrow aborts the
emission before the rejecting listener of lines 369-376 runs and cannot
reach the try/catch of the function, so the process dies with an uncaught
exception instead of producing a Result. -/
def finishSession (st : DriverState) (t : TerminalEvent) (finalRaw : List Char) :
    SessionOutcome :=
  match t with
  | .closeEvt code =>
    let exitCode := resolveCloseCode code
    let st1 := applyFinalUrlCheck st finalRaw
    if exitCode == 0 then
      .result { success := true, output := some st1.output,
                errorOutput := some st1.errorOutput, error := none,
                loginUrl := some st1.loginUrl }
    else
      .result { success := false, output := some st1.output,
                errorOutput := some st1.errorOutput, error := none,
                loginUrl := some st1.loginUrl }
  | .timeoutEvt =>
    .result { success := false, output := none, errorOutput := none,
              error := some ("Login process timed out".toList), loginUrl := none }
  | .errorEvt msg => .crash msg

/-- A whole session of `refreshTokens`: the streaming phase in arrival
order, then the terminal phase.  Also returns the number of "Enter"
keystrokes scheduled during the session. -/
def runSession (events : List ChunkEvent) (t : TerminalEvent) (finalRaw : List Char) :
    SessionOutcome × Nat :=
  let p := processChunks initState events
  (finishSession p.1 t finalRaw, p.2)

/-- `extractUrl` of src/unnamed/part_000 (lines 29-37): only the plain
http/https pattern, whole leftmost match, no prefix strip. -/
def extractUrlP0 (text : List Char) : Option (List Char) :=
  scanFirst matchHttpAt text

/-- The mutable session variables of the part_000 variant (lines 23-26). -/
structure P0State where
  output : List Char
  errorOutput : List Char
  isLoginPrompted : Bool
  loginUrl : List Char
deriving DecidableEq

/-- The initial state of the part_000 variant. -/
def p0Init : P0State :=
  { output := [], errorOutput := [], isLoginPrompted := false, loginUrl := [] }

/-- The stdout "data" handler of src/unnamed/part_000 (lines 40-62): a
detected URL is assigned to `loginUrl` unconditionally, with no guard. -/
def p0OnStdout (st : P0State) (text : List Char) : P0State :=
  let st1 := { st with output := st.output ++ text }
  let st2 :=
    if containsSub text ("login".toList) || containsSub text ("authentication".toList)
        || containsSub text ("Welcome".toList) then
      { st1 with isLoginPrompted := true }
    else st1
  match extractUrlP0 text with
  | some url => { st2 with loginUrl := url }
  | none => st2

/-- The stderr "data" handler of src/unnamed/part_000 (lines 64-76): assign
only while `loginUrl` is still the empty string (JavaScript truthiness test
on the string). -/
def p0OnStderr (st : P0State) (text : List Char) : P0State :=
  let st1 := { st with errorOutput := st.errorOutput ++ text }
  match extractUrlP0 text with
  | some url => if st1.loginUrl.isEmpty then { st1 with loginUrl := url } else st1
  | none => st1

/-- An invocation of one of the three callbacks of the exit-code promise
executor (lines 327-377): the watchdog timer, the close handler, or the
error handler, in any interleaving. -/
inductive PromiseEvent
  | timerFire
  | closeFire (code : Option Nat)
  | errorFire (msg : List Char)
deriving DecidableEq

/-- A terminal settlement of the exit-code promise. -/
inductive Settle
  | resolvedWith (code : Nat)
  | rejectedTimeout
  | rejectedError (msg : List Char)
deriving DecidableEq

/-- One callback invocation of the executor: each of the three handlers is
guarded by the one-shot resolved flag; when the guard passes, the flag is
set and the promise is settled (timer rejects the timeout error, close
resolves `code || 0`, error rejects the error). -/
def promiseStep (flag : Bool) (e : PromiseEvent) : Bool × Option Settle :=
  if flag then (flag, none)
  else
    match e with
    | .timerFire => (true, some .rejectedTimeout)
    | .closeFire code => (true, some (.resolvedWith (resolveCloseCode code)))
    | .errorFire msg => (true, some (.rejectedError msg))

/-- The settlements produced across a sequence of callback invocations of
the executor. -/
def promiseRun (flag : Bool) : List PromiseEvent → List Settle
  | [] => []
  | e :: es =>
    let p := promiseStep flag e
    match p.2 with
    | some x => x :: promiseRun p.1 es
    | none => promiseRun p.1 es

/-- Declarative reading of the shared pattern shape: the strings matched by
`lit` followed by one or more URL characters. -/
def LitShape (lit m : List Char) : Prop :=
  ∃ run, run ≠ [] ∧ (∀ c ∈ run, isUrlChar c = true) ∧ m = lit ++ run

/-- Declarative reading of the first URL pattern: an http or https scheme
followed by one or more URL characters. -/
def HttpShape (m : List Char) : Prop :=
  LitShape ("http://".toList) m ∨ LitShape ("https://".toList) m

/-- Declarative reading of the prefixed URL patterns: the literal tag, then
a whitespace run, then an http(s) URL. -/
def PrefixedShape (pre m : List Char) : Prop :=
  ∃ ws m1, (∀ c ∈ ws, isJsSpace c = true) ∧ HttpShape m1 ∧ m = pre ++ (ws ++ m1)

/-- A string matched by one of the six URL patterns of `extractUrl`. -/
def UrlPatternShape (m : List Char) : Prop :=
  HttpShape m ∨ LitShape ("claude.ai/".toList) m ∨ LitShape ("anthropic.com/".toList) m ∨
  PrefixedShape ("Visit:".toList) m ∨ PrefixedShape ("Open:".toList) m ∨
  PrefixedShape ("URL:".toList) m

/-- The text contains a substring matched by one of the six URL patterns. -/
def ContainsUrlPattern (s : List Char) : Prop :=
  ∃ m, UrlPatternShape m ∧ m <:+: s

/-! Lemmas about the substring scan. -/

theorem containsSub_iff (hay needle : List Char) :
    containsSub hay needle = true ↔ needle <:+: hay := by
  induction hay with
  | nil =>
    simp [containsSub, List.isPrefixOf_iff_prefix]
  | cons c t ih =>
    simp [containsSub, List.isPrefixOf_iff_prefix, ih, List.infix_cons_iff]

theorem scanFirst_eq_none_iff (f : List Char → Option (List Char)) (s : List Char) :
    scanFirst f s = none ↔ ∀ n, f (List.drop n s) = none := by
  induction s with
  | nil =>
    constructor
    · intro h n
      simpa [List.drop_nil] using h
    · intro h
      simpa [scanFirst] using h 0
  | cons c cs ih =>
    constructor
    · intro h n
      cases hf : f (c :: cs) with
      | some m => simp [scanFirst, hf] at h
      | none =>
        have h2 : scanFirst f cs = none := by simpa [scanFirst, hf] using h
        match n with
        | 0 => simpa using hf
        | Nat.succ k => simpa using (ih.mp h2) k
    · intro h
      have h0 : f (c :: cs) = none := by simpa using h 0
      have hr : ∀ n, f (List.drop n cs) = none := fun n => by simpa using h (n + 1)
      simp [scanFirst, h0, ih.mpr hr]

theorem scanFirst_eq_some_drop (f : List Char → Option (List Char)) (s m : List Char)
    (h : scanFirst f s = some m) : ∃ n, f (List.drop n s) = some m := by
  induction s with
  | nil => exact ⟨0, by simpa [scanFirst] using h⟩
  | cons c cs ih =>
    cases hf : f (c :: cs) with
    | some m2 =>
      have hm : m2 = m := by simpa [scanFirst, hf] using h
      exact ⟨0, by simpa [hm] using hf⟩
    | none =>
      obtain ⟨n, hn⟩ := ih (by simpa [scanFirst, hf] using h)
      exact ⟨n + 1, by simpa using hn⟩

theorem isInfix_iff_exists_drop (m s : List Char) :
    m <:+: s ↔ ∃ n rest, m ++ rest = List.drop n s := by
  constructor
  · intro h
    obtain ⟨t, hp, hs⟩ := List.infix_iff_prefix_suffix.mp h
    obtain ⟨rest, hrest⟩ := hp
    exact ⟨s.length - t.length, rest, by rw [hrest]; exact List.suffix_iff_eq_drop.mp hs⟩
  · rintro ⟨n, rest, hr⟩
    exact List.infix_iff_prefix_suffix.mpr ⟨List.drop n s, ⟨rest, hr⟩, List.drop_suffix n s⟩

/-! Lemmas relating the anchored matchers to the declarative pattern shapes. -/

theorem matchLitThenRun_eq_some (lit l m : List Char)
    (h : matchLitThenRun lit l = some m) :
    LitShape lit m ∧ ∃ rest, l = m ++ rest := by
  unfold matchLitThenRun at h
  by_cases hp : List.isPrefixOf lit l
  · rw [if_pos hp] at h
    obtain ⟨t, ht⟩ := List.isPrefixOf_iff_prefix.mp hp
    have hdrop : List.drop lit.length l = t := by
      rw [← ht]; exact List.drop_left lit t
    rw [hdrop] at h
    by_cases he : (List.takeWhile isUrlChar t).isEmpty = true
    · rw [if_pos he] at h; cases h
    · rw [if_neg he] at h
      injection h with h
      refine ⟨⟨List.takeWhile isUrlChar t, ?_, ?_, h.symm⟩,
              ⟨List.dropWhile isUrlChar t, ?_⟩⟩
      · intro hnil
        rw [hnil] at he
        simp at he
      · intro c hc
        exact List.all_eq_true.mp (List.all_takeWhile (l := t)) c hc
      · rw [← h, List.append_assoc, List.takeWhile_append_dropWhile, ht]
  · rw [if_neg hp] at h; cases h

theorem matchLitThenRun_isSome (lit m rest l : List Char)
    (hshape : LitShape lit m) (hl : m ++ rest = l) :
    (matchLitThenRun lit l).isSome = true := by
  obtain ⟨run, hne, hall, hm⟩ := hshape
  subst hm
  have hl2 : lit ++ (run ++ rest) = l := by rw [← hl, List.append_assoc]
  have hpre : List.isPrefixOf lit l := List.isPrefixOf_iff_prefix.mpr ⟨run ++ rest, hl2⟩
  have hdrop : List.drop lit.length l = run ++ rest := by
    rw [← hl2]; exact List.drop_left lit (run ++ rest)
  obtain ⟨a, run2, hrun⟩ := List.exists_cons_of_ne_nil hne
  have ha : isUrlChar a = true := hall a (by simp [hrun])
  unfold matchLitThenRun
  simp [hpre, hdrop, hrun, List.takeWhile_cons_of_pos ha]

theorem matchHttpAt_eq_some (l m : List Char) (h : matchHttpAt l = some m) :
    HttpShape m ∧ ∃ rest, l = m ++ rest := by
  unfold matchHttpAt at h
  cases h1 : matchLitThenRun ("https://".toList) l with
  | some m2 =>
    rw [h1] at h
    injection h with h
    subst h
    obtain ⟨hs, hr⟩ := matchLitThenRun_eq_some _ _ _ h1
    exact ⟨Or.inr hs, hr⟩
  | none =>
    rw [h1] at h
    obtain ⟨hs, hr⟩ := matchLitThenRun_eq_some _ _ _ h
    exact ⟨Or.inl hs, hr⟩

theorem matchHttpAt_isSome (m rest l : List Char)
    (hshape : HttpShape m) (hl : m ++ rest = l) :
    (matchHttpAt l).isSome = true := by
  unfold matchHttpAt
  cases h1 : matchLitThenRun ("https://".toList) l with
  | some m2 => simp
  | none =>
    cases hshape with
    | inl hsh => simpa using matchLitThenRun_isSome _ _ _ _ hsh hl
    | inr hsh =>
      have h2 := matchLitThenRun_isSome _ _ _ _ hsh hl
      rw [h1] at h2
      simp at h2

theorem dropWhile_append_of_all (p : Char → Bool) (ws l : List Char)
    (h : ∀ c ∈ ws, p c = true) :
    List.dropWhile p (ws ++ l) = List.dropWhile p l := by
  induction ws with
  | nil => rfl
  | cons a t ih =>
    have ha : p a = true := h a (by simp)
    rw [List.cons_append, List.dropWhile_cons_of_pos ha]
    exact ih (fun c hc => h c (by simp [hc]))

theorem dropWhile_http_fixed (m rest : List Char) (h : HttpShape m) :
    List.dropWhile isJsSpace (m ++ rest) = m ++ rest := by
  have hh : isJsSpace 'h' = false := by decide
  obtain (⟨run, hne, hall, hm⟩ | ⟨run, hne, hall, hm⟩) := h <;> subst hm
  · have : (("http://".toList : List Char) ++ run) ++ rest =
        'h' :: (("ttp://".toList ++ run) ++ rest) := rfl
    rw [this, List.dropWhile_cons_of_neg (by simp [hh])]
  · have : (("https://".toList : List Char) ++ run) ++ rest =
        'h' :: (("ttps://".toList ++ run) ++ rest) := rfl
    rw [this, List.dropWhile_cons_of_neg (by simp [hh])]

theorem matchPrefixedAt_eq_some (pre l m : List Char)
    (h : matchPrefixedAt pre l = some m) :
    PrefixedShape pre m ∧ ∃ rest, l = m ++ rest := by
  unfold matchPrefixedAt at h
  by_cases hp : List.isPrefixOf pre l
  · simp only [hp, if_true] at h
    cases h1 : matchHttpAt (List.dropWhile isJsSpace (List.drop pre.length l)) with
    | none => rw [h1] at h; cases h
    | some m1 =>
      rw [h1] at h
      injection h with h
      obtain ⟨hs, r2, hr2⟩ := matchHttpAt_eq_some _ _ h1
      obtain ⟨t, ht⟩ := List.isPrefixOf_iff_prefix.mp hp
      have hdrop : List.drop pre.length l = t := by
        rw [← ht]; exact List.drop_left pre t
      rw [hdrop] at h hr2
      constructor
      · refine ⟨List.takeWhile isJsSpace t, m1, ?_, hs, h.symm⟩
        intro c hc
        exact List.all_eq_true.mp (List.all_takeWhile (l := t)) c hc
      · refine ⟨r2, ?_⟩
        rw [← h, ← ht]
        have hsplit : t = List.takeWhile isJsSpace t ++ (m1 ++ r2) := by
          rw [← hr2, List.takeWhile_append_dropWhile]
        conv_lhs => rw [hsplit]
        simp [List.append_assoc]
  · simp [hp] at h

theorem matchPrefixedAt_isSome (pre m rest l : List Char)
    (hshape : PrefixedShape pre m) (hl : m ++ rest = l) :
    (matchPrefixedAt pre l).isSome = true := by
  obtain ⟨ws, m1, hws, hm1, hm⟩ := hshape
  subst hm
  have hl2 : pre ++ (ws ++ (m1 ++ rest)) = l := by
    rw [← hl]; simp [List.append_assoc]
  have hpre : List.isPrefixOf pre l :=
    List.isPrefixOf_iff_prefix.mpr ⟨ws ++ (m1 ++ rest), hl2⟩
  have hdrop : List.drop pre.length l = ws ++ (m1 ++ rest) := by
    rw [← hl2]; exact List.drop_left pre (ws ++ (m1 ++ rest))
  have hdw : List.dropWhile isJsSpace (ws ++ (m1 ++ rest)) = m1 ++ rest := by
    rw [dropWhile_append_of_all _ _ _ hws, dropWhile_http_fixed _ _ hm1]
  have hsome := matchHttpAt_isSome m1 rest (m1 ++ rest) hm1 rfl
  unfold matchPrefixedAt
  simp only [hpre, if_true, hdrop, hdw]
  cases hx : matchHttpAt (m1 ++ rest) with
  | some m2 => simp
  | none => rw [hx] at hsome; simp at hsome

/-! The scan of a pattern finds a match exactly when the text contains a
substring of that pattern's shape. -/

theorem scanFirst_none_iff_no_shape (f : List Char → Option (List Char))
    (Shape : List Char → Prop)
    (hsound : ∀ l m, f l = some m → Shape m ∧ ∃ rest, l = m ++ rest)
    (hcomplete : ∀ m rest l, Shape m → m ++ rest = l → (f l).isSome = true)
    (s : List Char) :
    scanFirst f s = none ↔ ¬ ∃ m, Shape m ∧ m <:+: s := by
  constructor
  · rintro h ⟨m, hm, hinf⟩
    obtain ⟨n, rest, hnr⟩ := (isInfix_iff_exists_drop m s).mp hinf
    have hcomp := hcomplete m rest _ hm hnr
    have h2 := (scanFirst_eq_none_iff f s).mp h n
    rw [h2] at hcomp
    simp at hcomp
  · intro h
    rw [scanFirst_eq_none_iff]
    intro n
    cases hf : f (List.drop n s) with
    | none => rfl
    | some m =>
      obtain ⟨hm, rest, hrest⟩ := hsound _ _ hf
      exact absurd ⟨m, hm, (isInfix_iff_exists_drop m s).mpr ⟨n, rest, hrest.symm⟩⟩ h

theorem scanFirst_some_shape (f : List Char → Option (List Char))
    (Shape : List Char → Prop)
    (hsound : ∀ l m, f l = some m → Shape m ∧ ∃ rest, l = m ++ rest)
    (s m : List Char) (h : scanFirst f s = some m) :
    Shape m ∧ m <:+: s := by
  obtain ⟨n, hn⟩ := scanFirst_eq_some_drop f s m h
  obtain ⟨hm, rest, hrest⟩ := hsound _ _ hn
  exact ⟨hm, (isInfix_iff_exists_drop m s).mpr ⟨n, rest, hrest.symm⟩⟩

theorem scanHttp_none_iff (s : List Char) :
    scanFirst matchHttpAt s = none ↔ ¬ ∃ m, HttpShape m ∧ m <:+: s :=
  scanFirst_none_iff_no_shape matchHttpAt HttpShape matchHttpAt_eq_some matchHttpAt_isSome s

theorem scanLit_none_iff (lit s : List Char) :
    scanFirst (matchLitThenRun lit) s = none ↔ ¬ ∃ m, LitShape lit m ∧ m <:+: s :=
  scanFirst_none_iff_no_shape (matchLitThenRun lit) (LitShape lit)
    (matchLitThenRun_eq_some lit)
    (fun m rest l h1 h2 => matchLitThenRun_isSome lit m rest l h1 h2) s

theorem scanPrefixed_none_iff (pre s : List Char) :
    scanFirst (matchPrefixedAt pre) s = none ↔ ¬ ∃ m, PrefixedShape pre m ∧ m <:+: s :=
  scanFirst_none_iff_no_shape (matchPrefixedAt pre) (PrefixedShape pre)
    (matchPrefixedAt_eq_some pre)
    (fun m rest l h1 h2 => matchPrefixedAt_isSome pre m rest l h1 h2) s

theorem extractUrl_none_scans (s : List Char) :
    extractUrl s = none ↔
      (scanFirst matchHttpAt s = none ∧
       scanFirst (matchLitThenRun ("claude.ai/".toList)) s = none ∧
       scanFirst (matchLitThenRun ("anthropic.com/".toList)) s = none ∧
       scanFirst (matchPrefixedAt ("Visit:".toList)) s = none ∧
       scanFirst (matchPrefixedAt ("Open:".toList)) s = none ∧
       scanFirst (matchPrefixedAt ("URL:".toList)) s = none) := by
  constructor
  · intro h
    unfold extractUrl at h
    cases h1 : scanFirst matchHttpAt s with
    | some r => rw [h1] at h; simp at h
    | none =>
    rw [h1] at h
    cases h2 : scanFirst (matchLitThenRun ("claude.ai/".toList)) s with
    | some r => rw [h2] at h; simp at h
    | none =>
    rw [h2] at h
    cases h3 : scanFirst (matchLitThenRun ("anthropic.com/".toList)) s with
    | some r => rw [h3] at h; simp at h
    | none =>
    rw [h3] at h
    cases h4 : scanFirst (matchPrefixedAt ("Visit:".toList)) s with
    | some r => rw [h4] at h; simp at h
    | none =>
    rw [h4] at h
    cases h5 : scanFirst (matchPrefixedAt ("Open:".toList)) s with
    | some r => rw [h5] at h; simp at h
    | none =>
    rw [h5] at h
    cases h6 : scanFirst (matchPrefixedAt ("URL:".toList)) s with
    | some r => rw [h6] at h; simp at h
    | none => exact ⟨rfl, rfl, rfl, rfl, rfl, rfl⟩
  · rintro ⟨h1, h2, h3, h4, h5, h6⟩
    unfold extractUrl
    rw [h1, h2, h3, h4, h5, h6]

theorem extractUrl_eq_none_iff (s : List Char) :
    extractUrl s = none ↔ ¬ ContainsUrlPattern s := by
  rw [extractUrl_none_scans, scanHttp_none_iff, scanLit_none_iff, scanLit_none_iff,
      scanPrefixed_none_iff, scanPrefixed_none_iff, scanPrefixed_none_iff]
  unfold ContainsUrlPattern UrlPatternShape
  constructor
  · rintro ⟨n1, n2, n3, n4, n5, n6⟩ ⟨m, hm, hi⟩
    rcases hm with hm|hm|hm|hm|hm|hm
    · exact n1 ⟨m, hm, hi⟩
    · exact n2 ⟨m, hm, hi⟩
    · exact n3 ⟨m, hm, hi⟩
    · exact n4 ⟨m, hm, hi⟩
    · exact n5 ⟨m, hm, hi⟩
    · exact n6 ⟨m, hm, hi⟩
  · intro h
    exact ⟨fun ⟨m, hm, hi⟩ => h ⟨m, Or.inl hm, hi⟩,
           fun ⟨m, hm, hi⟩ => h ⟨m, Or.inr (Or.inl hm), hi⟩,
           fun ⟨m, hm, hi⟩ => h ⟨m, Or.inr (Or.inr (Or.inl hm)), hi⟩,
           fun ⟨m, hm, hi⟩ => h ⟨m, Or.inr (Or.inr (Or.inr (Or.inl hm))), hi⟩,
           fun ⟨m, hm, hi⟩ => h ⟨m, Or.inr (Or.inr (Or.inr (Or.inr (Or.inl hm)))), hi⟩,
           fun ⟨m, hm, hi⟩ => h ⟨m, Or.inr (Or.inr (Or.inr (Or.inr (Or.inr hm)))), hi⟩⟩

theorem extractUrl_eq_some_shape (s m : List Char) (h : extractUrl s = some m) :
    ∃ raw, UrlPatternShape raw ∧ raw <:+: s ∧ m = stripUrlPrefix raw := by
  unfold extractUrl at h
  cases h1 : scanFirst matchHttpAt s with
  | some r =>
    obtain ⟨hs, hi⟩ := scanFirst_some_shape _ _ matchHttpAt_eq_some s r h1
    rw [h1] at h
    have hm : stripUrlPrefix r = m := by simpa using h
    exact ⟨r, Or.inl hs, hi, hm.symm⟩
  | none =>
  rw [h1] at h
  cases h2 : scanFirst (matchLitThenRun ("claude.ai/".toList)) s with
  | some r =>
    obtain ⟨hs, hi⟩ := scanFirst_some_shape _ _ (matchLitThenRun_eq_some _) s r h2
    rw [h2] at h
    have hm : stripUrlPrefix r = m := by simpa using h
    exact ⟨r, Or.inr (Or.inl hs), hi, hm.symm⟩
  | none =>
  rw [h2] at h
  cases h3 : scanFirst (matchLitThenRun ("anthropic.com/".toList)) s with
  | some r =>
    obtain ⟨hs, hi⟩ := scanFirst_some_shape _ _ (matchLitThenRun_eq_some _) s r h3
    rw [h3] at h
    have hm : stripUrlPrefix r = m := by simpa using h
    exact ⟨r, Or.inr (Or.inr (Or.inl hs)), hi, hm.symm⟩
  | none =>
  rw [h3] at h
  cases h4 : scanFirst (matchPrefixedAt ("Visit:".toList)) s with
  | some r =>
    obtain ⟨hs, hi⟩ := scanFirst_some_shape _ _ (matchPrefixedAt_eq_some _) s r h4
    rw [h4] at h
    have hm : stripUrlPrefix r = m := by simpa using h
    exact ⟨r, Or.inr (Or.inr (Or.inr (Or.inl hs))), hi, hm.symm⟩
  | none =>
  rw [h4] at h
  cases h5 : scanFirst (matchPrefixedAt ("Open:".toList)) s with
  | some r =>
    obtain ⟨hs, hi⟩ := scanFirst_some_shape _ _ (matchPrefixedAt_eq_some _) s r h5
    rw [h5] at h
    have hm : stripUrlPrefix r = m := by simpa using h
    exact ⟨r, Or.inr (Or.inr (Or.inr (Or.inr (Or.inl hs)))), hi, hm.symm⟩
  | none =>
  rw [h5] at h
  cases h6 : scanFirst (matchPrefixedAt ("URL:".toList)) s with
  | some r =>
    obtain ⟨hs, hi⟩ := scanFirst_some_shape _ _ (matchPrefixedAt_eq_some _) s r h6
    rw [h6] at h
    have hm : stripUrlPrefix r = m := by simpa using h
    exact ⟨r, Or.inr (Or.inr (Or.inr (Or.inr (Or.inr hs)))), hi, hm.symm⟩
  | none =>
  rw [h6] at h
  simp at h

/-! Lemmas about the session state machine. -/

@[simp] theorem noteLoginPrompted_loginUrl (st : DriverState) (t : List Char) :
    (noteLoginPrompted st t).loginUrl = st.loginUrl := by
  unfold noteLoginPrompted; split <;> rfl

@[simp] theorem noteLoginPrompted_urlDetected (st : DriverState) (t : List Char) :
    (noteLoginPrompted st t).urlDetected = st.urlDetected := by
  unfold noteLoginPrompted; split <;> rfl

@[simp] theorem noteLoginPrompted_menuDisplayed (st : DriverState) (t : List Char) :
    (noteLoginPrompted st t).menuDisplayed = st.menuDisplayed := by
  unfold noteLoginPrompted; split <;> rfl

@[simp] theorem latchUrl_menuDisplayed (st : DriverState) (t : List Char) :
    (latchUrl st t).menuDisplayed = st.menuDisplayed := by
  unfold latchUrl
  cases extractUrl t with
  | none => rfl
  | some u => by_cases h : st.urlDetected <;> simp [h]

theorem latchUrl_of_detected (st : DriverState) (t : List Char)
    (h : st.urlDetected = true) : latchUrl st t = st := by
  unfold latchUrl
  cases extractUrl t with
  | none => rfl
  | some u => simp [h]

theorem latchUrl_not_detected (st : DriverState) (t : List Char)
    (h : (latchUrl st t).urlDetected = false) :
    latchUrl st t = st ∧ st.urlDetected = false := by
  unfold latchUrl at h ⊢
  cases hx : extractUrl t with
  | none =>
    rw [hx] at h
    exact ⟨rfl, by simpa using h⟩
  | some u =>
    rw [hx] at h
    by_cases hd : st.urlDetected = true
    · simp [hd] at h
    · simp only [Bool.not_eq_true] at hd
      simp [hd] at h

@[simp] theorem answerMenu_loginUrl (st : DriverState) (t : List Char) :
    (answerMenu st t).1.loginUrl = st.loginUrl := by
  unfold answerMenu; split <;> rfl

@[simp] theorem answerMenu_urlDetected (st : DriverState) (t : List Char) :
    (answerMenu st t).1.urlDetected = st.urlDetected := by
  unfold answerMenu; split <;> rfl

@[simp] theorem answerMenu_output (st : DriverState) (t : List Char) :
    (answerMenu st t).1.output = st.output := by
  unfold answerMenu; split <;> rfl

@[simp] theorem answerMenu_errorOutput (st : DriverState) (t : List Char) :
    (answerMenu st t).1.errorOutput = st.errorOutput := by
  unfold answerMenu; split <;> rfl

theorem answerMenu_snd (st : DriverState) (t : List Char) :
    (answerMenu st t).2 = (detectMenu t && !st.menuDisplayed) := by
  unfold answerMenu; split <;> simp_all

theorem answerMenu_menuDisplayed (st : DriverState) (t : List Char) :
    (answerMenu st t).1.menuDisplayed = ((answerMenu st t).2 || st.menuDisplayed) := by
  unfold answerMenu; split <;> simp

theorem stepChunk_url_latch (s : DriverState) (e : ChunkEvent)
    (h : s.urlDetected = true) :
    (stepChunk s e).1.loginUrl = s.loginUrl ∧ (stepChunk s e).1.urlDetected = true := by
  cases e with
  | stdoutData t =>
    have h1 : (noteLoginPrompted { s with output := s.output ++ t } t).urlDetected = true := by
      simpa using h
    simp only [stepChunk, onStdout]
    rw [latchUrl_of_detected _ _ h1]
    simp [h]
  | stderrData t =>
    have h1 : ({ s with errorOutput := s.errorOutput ++ t } : DriverState).urlDetected = true := h
    simp only [stepChunk, onStderr]
    rw [latchUrl_of_detected _ _ h1]
    simp [h]
  | intervalFire raw =>
    simp [stepChunk, onIntervalCheck, h]

theorem processChunks_url_latch (es : List ChunkEvent) (s : DriverState)
    (h : s.urlDetected = true) :
    (processChunks s es).1.loginUrl = s.loginUrl ∧
    (processChunks s es).1.urlDetected = true := by
  induction es generalizing s with
  | nil => exact ⟨rfl, h⟩
  | cons e es ih =>
    obtain ⟨h1, h2⟩ := stepChunk_url_latch s e h
    obtain ⟨h3, h4⟩ := ih (stepChunk s e).1 h2
    simp only [processChunks]
    exact ⟨by rw [h3, h1], h4⟩

theorem stepChunk_menu (s : DriverState) (e : ChunkEvent) :
    (stepChunk s e).1.menuDisplayed = ((stepChunk s e).2 || s.menuDisplayed) := by
  cases e with
  | stdoutData t =>
    unfold stepChunk onStdout
    rw [answerMenu_menuDisplayed]
    simp
  | stderrData t =>
    unfold stepChunk onStderr
    rw [answerMenu_menuDisplayed]
    simp
  | intervalFire raw =>
    unfold stepChunk onIntervalCheck
    by_cases h : s.urlDetected = true
    · simp [h]
    · simp only [Bool.not_eq_true] at h
      cases hc : checkInterceptedUrl raw <;> simp [h, hc]

theorem stepChunk_sent_false_of_menu (s : DriverState) (e : ChunkEvent)
    (h : s.menuDisplayed = true) :
    (stepChunk s e).2 = false ∧ (stepChunk s e).1.menuDisplayed = true := by
  have hsnd : (stepChunk s e).2 = false := by
    cases e with
    | stdoutData t =>
      unfold stepChunk onStdout
      rw [answerMenu_snd]
      simp [h]
    | stderrData t =>
      unfold stepChunk onStderr
      rw [answerMenu_snd]
      simp [h]
    | intervalFire raw => rfl
  refine ⟨hsnd, ?_⟩
  rw [stepChunk_menu, h]
  simp

theorem processChunks_zero_of_menu (es : List ChunkEvent) (s : DriverState)
    (h : s.menuDisplayed = true) : (processChunks s es).2 = 0 := by
  induction es generalizing s with
  | nil => rfl
  | cons e es ih =>
    obtain ⟨h1, h2⟩ := stepChunk_sent_false_of_menu s e h
    simp only [processChunks]
    simp [h1, ih _ h2]

theorem processChunks_le_one (es : List ChunkEvent) (s : DriverState) :
    (processChunks s es).2 ≤ 1 := by
  induction es generalizing s with
  | nil => exact Nat.zero_le 1
  | cons e es ih =>
    simp only [processChunks]
    by_cases hs : (stepChunk s e).2 = true
    · have hm : (stepChunk s e).1.menuDisplayed = true := by
        rw [stepChunk_menu, hs]; rfl
      simp [hs, processChunks_zero_of_menu es _ hm]
    · simp only [Bool.not_eq_true] at hs
      simpa [hs] using ih (stepChunk s e).1

theorem stepChunk_url_empty (s : DriverState) (e : ChunkEvent)
    (hinv : s.urlDetected = false → s.loginUrl = [])
    (h2 : (stepChunk s e).1.urlDetected = false) :
    (stepChunk s e).1.loginUrl = [] := by
  cases e with
  | stdoutData t =>
    simp only [stepChunk, onStdout] at h2 ⊢
    rw [answerMenu_urlDetected] at h2
    obtain ⟨heq, hfalse⟩ := latchUrl_not_detected _ _ h2
    rw [answerMenu_loginUrl, heq]
    simp only [noteLoginPrompted_urlDetected] at hfalse
    simp only [noteLoginPrompted_loginUrl]
    exact hinv hfalse
  | stderrData t =>
    simp only [stepChunk, onStderr] at h2 ⊢
    rw [answerMenu_urlDetected] at h2
    obtain ⟨heq, hfalse⟩ := latchUrl_not_detected _ _ h2
    rw [answerMenu_loginUrl, heq]
    exact hinv hfalse
  | intervalFire raw =>
    by_cases hd : s.urlDetected = true
    · simp [stepChunk, onIntervalCheck, hd] at h2
    · simp only [Bool.not_eq_true] at hd
      cases hc : checkInterceptedUrl raw with
      | none =>
        simp [stepChunk, onIntervalCheck, hd, hc]
        exact hinv hd
      | some u =>
        simp [stepChunk, onIntervalCheck, hd, hc] at h2

theorem processChunks_url_empty (es : List ChunkEvent) (s : DriverState)
    (hinv : s.urlDetected = false → s.loginUrl = [])
    (h : (processChunks s es).1.urlDetected = false) :
    (processChunks s es).1.loginUrl = [] := by
  induction es generalizing s with
  | nil => exact hinv h
  | cons e es ih =>
    simp only [processChunks] at h ⊢
    exact ih (stepChunk s e).1 (stepChunk_url_empty s e hinv) h

/-! Lemmas about the terminal phase and the result mapping. -/

@[simp] theorem applyFinalUrlCheck_output (st : DriverState) (raw : List Char) :
    (applyFinalUrlCheck st raw).output = st.output := by
  unfold applyFinalUrlCheck
  split
  · cases checkInterceptedUrl raw <;> rfl
  · rfl

@[simp] theorem applyFinalUrlCheck_errorOutput (st : DriverState) (raw : List Char) :
    (applyFinalUrlCheck st raw).errorOutput = st.errorOutput := by
  unfold applyFinalUrlCheck
  split
  · cases checkInterceptedUrl raw <;> rfl
  · rfl

theorem applyFinalUrlCheck_of_detected (st : DriverState) (raw : List Char)
    (h : st.urlDetected = true) : applyFinalUrlCheck st raw = st := by
  unfold applyFinalUrlCheck
  simp [h]

theorem applyFinalUrlCheck_of_none (st : DriverState) (raw : List Char)
    (h : checkInterceptedUrl raw = none) : applyFinalUrlCheck st raw = st := by
  unfold applyFinalUrlCheck
  rw [h]
  split <;> rfl

theorem finishSession_close_zero (st : DriverState) (code : Option Nat) (raw : List Char)
    (h : resolveCloseCode code = 0) :
    finishSession st (.closeEvt code) raw =
      .result { success := true,
                output := some (applyFinalUrlCheck st raw).output,
                errorOutput := some (applyFinalUrlCheck st raw).errorOutput,
                error := none,
                loginUrl := some (applyFinalUrlCheck st raw).loginUrl } := by
  simp [finishSession, h]

theorem finishSession_close_nonzero (st : DriverState) (code : Option Nat) (raw : List Char)
    (h : resolveCloseCode code ≠ 0) :
    finishSession st (.closeEvt code) raw =
      .result { success := false,
                output := some (applyFinalUrlCheck st raw).output,
                errorOutput := some (applyFinalUrlCheck st raw).errorOutput,
                error := none,
                loginUrl := some (applyFinalUrlCheck st raw).loginUrl } := by
  simp [finishSession, h]

theorem resolveCloseCode_some (n : Nat) : resolveCloseCode (some n) = n := by
  unfold resolveCloseCode
  by_cases h : n = 0 <;> simp [h]

/-! Lemmas about the exit-code promise executor. -/

theorem promiseRun_resolved (es : List PromiseEvent) : promiseRun true es = [] := by
  induction es with
  | nil => rfl
  | cons e es ih => simp [promiseRun, promiseStep, ih]

theorem promiseStep_false (e : PromiseEvent) :
    ∃ x, promiseStep false e = (true, some x) := by
  cases e <;> exact ⟨_, rfl⟩

/-! Claim theorems. -/

/-- C1, counterexample to the claim as stated: a session whose only chunk
carries a login URL and whose child never closes hits the watchdog, yet the
returned Result drops both the accumulated output and the detected loginUrl
(the catch block returns only the error message). -/
theorem C1_counterexample_timeout_drops_output :
    (processChunks initState
        [ChunkEvent.stdoutData ("Visit: https://example.com/b".toList)]).1.urlDetected = true ∧
    (processChunks initState
        [ChunkEvent.stdoutData ("Visit: https://example.com/b".toList)]).1.output ≠ [] ∧
    (runSession [ChunkEvent.stdoutData ("Visit: https://example.com/b".toList)]
        TerminalEvent.timeoutEvt []).1 =
      SessionOutcome.result { success := false, output := none, errorOutput := none,
                              error := some ("Login process timed out".toList),
                              loginUrl := none } := by
  decide

/-- C1 as amended: every session that hits the watchdog finishes as a
timeout with success=false and the error message "Login process timed out";
the partial output and any detected loginUrl are only logged to the console
and are omitted from the returned Result. -/
theorem C1_amended_timeout_result (es : List ChunkEvent) (finalRaw : List Char) :
    (runSession es TerminalEvent.timeoutEvt finalRaw).1 =
      SessionOutcome.result { success := false, output := none, errorOutput := none,
                              error := some ("Login process timed out".toList),
                              loginUrl := none } := rfl

/-- C2, counterexample to the claim as stated: in the src/unnamed/part_000
variant the stdout handler assigns loginUrl unconditionally, so a second
stdout chunk with a different URL overwrites the first detected URL. -/
theorem C2_counterexample_part000_overwrite :
    (p0OnStdout p0Init ("http://a.example/x".toList)).loginUrl =
      "http://a.example/x".toList ∧
    (p0OnStdout (p0OnStdout p0Init ("http://a.example/x".toList))
        ("http://b.example/y".toList)).loginUrl = "http://b.example/y".toList ∧
    ("http://b.example/y".toList ≠ "http://a.example/x".toList) := by
  decide

/-- C2 as amended: in src/src/refresh_token.ts the first detected URL is
latched: once urlDetected is set, no later stdout, stderr or interval event
changes loginUrl, and the final intercepted-url check after close leaves the
state unchanged as well.  (In the part_000 variant the stdout handler
overwrites loginUrl on every URL-bearing chunk; only its stderr handler is
guarded, by loginUrl still being empty.) -/
theorem C2_amended_url_latch (s : DriverState) (es : List ChunkEvent)
    (h : s.urlDetected = true) :
    (processChunks s es).1.loginUrl = s.loginUrl ∧
    (processChunks s es).1.urlDetected = true ∧
    ∀ raw, applyFinalUrlCheck (processChunks s es).1 raw = (processChunks s es).1 := by
  obtain ⟨h1, h2⟩ := processChunks_url_latch es s h
  exact ⟨h1, h2, fun raw => applyFinalUrlCheck_of_detected _ raw h2⟩

/-- Witness for C2 as amended, at a concrete detected state and chunk. -/
theorem C2_amended_witness :
    (processChunks { output := [], errorOutput := [], isLoginPrompted := false,
                     loginUrl := "http://a.example/x".toList,
                     menuDisplayed := false, urlDetected := true }
      [ChunkEvent.stdoutData ("http://b.example/y".toList)]).1.loginUrl =
      "http://a.example/x".toList :=
  (C2_amended_url_latch _ _ rfl).1

/-- C3: `extractUrl` returns none exactly on texts containing no substring
matched by one of the six URL patterns; on success it returns a pattern
match occurring in the text with any recognized prefix stripped; and on
"Visit: https://example.com/a" it returns "https://example.com/a". -/
theorem C3_extractUrl_spec :
    (∀ s, extractUrl s = none ↔ ¬ ContainsUrlPattern s) ∧
    (∀ s m, extractUrl s = some m →
      ∃ raw, UrlPatternShape raw ∧ raw <:+: s ∧ m = stripUrlPrefix raw) ∧
    extractUrl ("Visit: https://example.com/a".toList) =
      some ("https://example.com/a".toList) :=
  ⟨extractUrl_eq_none_iff, extractUrl_eq_some_shape, by decide⟩

/-- Witness for C3 at a concrete input, discharging the hypothesis of the
soundness conjunct by evaluation. -/
theorem C3_witness :
    extractUrl ("Visit: https://example.com/a".toList) =
      some ("https://example.com/a".toList) ∧
    ∃ raw, UrlPatternShape raw ∧ raw <:+: ("Visit: https://example.com/a".toList) ∧
      ("https://example.com/a".toList) = stripUrlPrefix raw :=
  ⟨by decide, C3_extractUrl_spec.2.1 _ _ (by decide)⟩

/-- C4, the code evaluated at the failing input: a child "error" event (for
example a spawn failure) does not produce a success=false Result; the first
error listener rethrows inside the event-loop callback, which the try/catch
of refreshTokens cannot observe, so the process crashes with an uncaught
exception. -/
theorem C4_error_event_crashes (es : List ChunkEvent) (msg : List Char) (finalRaw : List Char) :
    (runSession es (TerminalEvent.errorEvt msg) finalRaw).1 = SessionOutcome.crash msg := rfl

/-- C5: at most one "Enter" newline keystroke is ever scheduled per session,
from any state; and the concrete session that emits one menu chunk and
closes with code 0 schedules exactly one keystroke and returns
success=true. -/
theorem C5_single_enter_per_session :
    (∀ es s, (processChunks s es).2 ≤ 1) ∧
    runSession [ChunkEvent.stdoutData ("Select login method".toList)]
        (TerminalEvent.closeEvt (some 0)) [] =
      (SessionOutcome.result { success := true,
                               output := some ("Select login method".toList),
                               errorOutput := some [], error := none,
                               loginUrl := some [] }, 1) :=
  ⟨fun es s => processChunks_le_one es s, by decide⟩

/-- C6: a close resolves the child's reported code, with a null (and zero)
code resolving to 0; the session Result has success=true exactly when the
resolved code is 0, carries output, errorOutput and loginUrl in both cases,
and has no error field. -/
theorem C6_close_exit_code_mapping (es : List ChunkEvent) (code : Option Nat)
    (finalRaw : List Char) :
    (∀ n, resolveCloseCode (some n) = n) ∧ resolveCloseCode none = 0 ∧
    ∃ r, (runSession es (TerminalEvent.closeEvt code) finalRaw).1 =
        SessionOutcome.result r ∧
      (r.success = true ↔ resolveCloseCode code = 0) ∧
      r.output = some (processChunks initState es).1.output ∧
      r.errorOutput = some (processChunks initState es).1.errorOutput ∧
      r.loginUrl = some (applyFinalUrlCheck (processChunks initState es).1 finalRaw).loginUrl ∧
      r.error = none := by
  refine ⟨resolveCloseCode_some, rfl, ?_⟩
  by_cases h : resolveCloseCode code = 0
  · refine ⟨_, finishSession_close_zero (processChunks initState es).1 code finalRaw h,
      ?_, ?_, ?_, rfl, rfl⟩
    · simp [h]
    · simp
    · simp
  · refine ⟨_, finishSession_close_nonzero (processChunks initState es).1 code finalRaw h,
      ?_, ?_, ?_, rfl, rfl⟩
    · simp [h]
    · simp
    · simp

/-- Witness for C6 at a concrete nonzero close code. -/
theorem C6_witness :
    ∃ r, (runSession [] (TerminalEvent.closeEvt (some 2)) []).1 =
        SessionOutcome.result r ∧ r.success = false := by
  obtain ⟨-, -, r, hr, hiff, -⟩ := C6_close_exit_code_mapping [] (some 2) []
  refine ⟨r, hr, ?_⟩
  cases hs : r.success
  · rfl
  · exact absurd (hiff.mp hs) (by decide)

/-- C7: `detectMenu` is a case-insensitive substring match against the
fixed indicator list: any text containing "Select login method" in any
letter case is accepted, and a text is rejected exactly when it contains
none of the listed indicators case-insensitively. -/
theorem C7_detectMenu_case_insensitive_match :
    (∀ s w, jsToLower w = jsToLower ("Select login method".toList) → w <:+: s →
      detectMenu s = true) ∧
    (∀ s, detectMenu s = false ↔
      ∀ ind ∈ menuIndicators, ¬ (jsToLower ind <:+: jsToLower s)) := by
  constructor
  · intro s w hw hi
    have hmem : ("Select login method".toList) ∈ menuIndicators := by decide
    have hmap : jsToLower w <:+: jsToLower s := List.IsInfix.map Char.toLower hi
    rw [hw] at hmap
    unfold detectMenu
    rw [List.any_eq_true]
    exact ⟨_, hmem, (containsSub_iff _ _).mpr hmap⟩
  · intro s
    unfold detectMenu
    rw [List.any_eq_false]
    constructor
    · intro h ind hmem hinf
      exact h ind hmem ((containsSub_iff _ _).mpr hinf)
    · intro h ind hmem hp
      exact h ind hmem ((containsSub_iff _ _).mp hp)

/-- Witness for C7 on a mixed-case occurrence of the phrase. -/
theorem C7_witness :
    detectMenu ("xx sELEct LOGIN methOD yy".toList) = true :=
  C7_detectMenu_case_insensitive_match.1 _ ("sELEct LOGIN methOD".toList)
    (by decide) (by decide)

/-- C8: in any interleaving of the watchdog timer, the close callback and
the error callback delivered to the exit-code promise executor, the one-shot
resolved flag lets at most one settlement happen, and the first delivered
callback settles the promise exactly once. -/
theorem C8_promise_single_settlement :
    (∀ flag es, (promiseRun flag es).length ≤ 1) ∧
    (∀ e es, (promiseRun false (e :: es)).length = 1) := by
  have hone : ∀ e es, (promiseRun false (e :: es)).length = 1 := by
    intro e es
    obtain ⟨x, hx⟩ := promiseStep_false e
    simp [promiseRun, hx, promiseRun_resolved]
  refine ⟨?_, hone⟩
  intro flag es
  cases flag
  · cases es with
    | nil => simp [promiseRun]
    | cons e es => exact Nat.le_of_eq (hone e es)
  · simp [promiseRun_resolved]

/-- C9: any chunk containing the single character ">" or the word
"continue" in any letter case makes `detectMenu` answer true, and such a
chunk triggers the Enter-key response whenever the menu guard is still
clear. -/
theorem C9_overbroad_menu_detection :
    (∀ s, (">".toList) <:+: s → detectMenu s = true) ∧
    (∀ s w, jsToLower w = jsToLower ("continue".toList) → w <:+: s →
      detectMenu s = true) ∧
    (∀ st t, st.menuDisplayed = false → detectMenu t = true → (onStdout st t).2 = true) := by
  refine ⟨?_, ?_, ?_⟩
  · intro s hi
    have hmem : (">".toList) ∈ menuIndicators := by decide
    have hmap : jsToLower (">".toList) <:+: jsToLower s := List.IsInfix.map Char.toLower hi
    unfold detectMenu
    rw [List.any_eq_true]
    exact ⟨_, hmem, (containsSub_iff _ _).mpr hmap⟩
  · intro s w hw hi
    have hmem : ("continue".toList) ∈ menuIndicators := by decide
    have hmap : jsToLower w <:+: jsToLower s := List.IsInfix.map Char.toLower hi
    rw [hw] at hmap
    unfold detectMenu
    rw [List.any_eq_true]
    exact ⟨_, hmem, (containsSub_iff _ _).mpr hmap⟩
  · intro st t h1 h2
    simp only [onStdout]
    rw [answerMenu_snd]
    simp [h2, h1]

/-- Witness for C9 at concrete chunks. -/
theorem C9_witness :
    detectMenu ("abc>def".toList) = true ∧
    (onStdout initState ("x CoNtInUe y".toList)).2 = true :=
  ⟨C9_overbroad_menu_detection.1 _ (by decide),
   C9_overbroad_menu_detection.2.2 initState _ rfl
     (C9_overbroad_menu_detection.2.1 _ ("CoNtInUe".toList) (by decide) (by decide))⟩

/-- C10: on a normal close of a session that never detected a URL (and with
no intercepted-url file content), the Result still carries the loginUrl
field with the empty string as its value, and carries output and
errorOutput, possibly empty. -/
theorem C10_result_fields_present (es : List ChunkEvent) (code : Option Nat)
    (finalRaw : List Char)
    (h1 : (processChunks initState es).1.urlDetected = false)
    (h2 : checkInterceptedUrl finalRaw = none) :
    ∃ r, (runSession es (TerminalEvent.closeEvt code) finalRaw).1 =
        SessionOutcome.result r ∧
      r.loginUrl = some [] ∧
      r.output = some (processChunks initState es).1.output ∧
      r.errorOutput = some (processChunks initState es).1.errorOutput ∧
      r.error = none := by
  have hurl : (processChunks initState es).1.loginUrl = [] :=
    processChunks_url_empty es initState (fun _ => rfl) h1
  have hfc : applyFinalUrlCheck (processChunks initState es).1 finalRaw =
      (processChunks initState es).1 := applyFinalUrlCheck_of_none _ _ h2
  by_cases h : resolveCloseCode code = 0
  · refine ⟨_, finishSession_close_zero (processChunks initState es).1 code finalRaw h,
      ?_, ?_, ?_, rfl⟩
    · simp [hfc, hurl]
    · simp
    · simp
  · refine ⟨_, finishSession_close_nonzero (processChunks initState es).1 code finalRaw h,
      ?_, ?_, ?_, rfl⟩
    · simp [hfc, hurl]
    · simp
    · simp

/-- Witness for C10 on the empty session. -/
theorem C10_witness :
    ∃ r, (runSession [] (TerminalEvent.closeEvt none) []).1 =
        SessionOutcome.result r ∧
      r.loginUrl = some [] ∧
      r.output = some (processChunks initState ([] : List ChunkEvent)).1.output ∧
      r.errorOutput = some (processChunks initState ([] : List ChunkEvent)).1.errorOutput ∧
      r.error = none :=
  C10_result_fields_present [] none [] rfl rfl

end RefreshToken
